import Mathlib

/-!
Shallow embedding of the placementrule controller and the certificates
subsystem of the multicluster-observability-operator, together with proofs
about the embedded operations.

Sources embedded:
* `controllers/placementrule/status.go` — status aggregation
  (`statusMap`, `updateAddonStatus`);
* `controllers/placementrule/placementrule_controller.go` — the convergence
  loop (`createAllRelatedRes`), the manifestwork cleanup phase of `Reconcile`,
  and `deleteGlobalResource`;
* `pkg/certificates/certificates.go` — the certificate renew paths of
  `createCASecret` / `createCertSecret` and the SAN construction of
  `createCertificate`.

External collaborators (the Kubernetes client and the Go standard library)
are modelled by explicit result values passed in as functions, so every
embedded operation is a pure function on those inputs.
-/

/-! ### Status aggregator (controllers/placementrule/status.go) -/

/-- One add-on status condition: the fields of a condition read and written by
`updateAddonStatus` (status.go lines 37-44). `lastTransitionTime` is an opaque
timestamp. -/
structure StatusCondition where
  condType : String
  status : String
  lastTransitionTime : Nat
  reason : String
  message : String
deriving DecidableEq, Repr

/-- The fixed condition-type translation table of status.go lines 21-28,
embedded as an association list with exactly the keys of the Go map literal. -/
def statusMap : List (String × String) :=
  [("Available", "Available"),
   ("Progressing", "Progressing"),
   ("Deployed", "Progressing"),
   ("Disabled", "Degraded"),
   ("Degraded", "Degraded"),
   ("NotSupported", "Degraded")]

/-- Go map indexing `statusMap[c.Type]`: a missing key yields the zero value
`""`. -/
def statusMapGet (t : String) : String :=
  (statusMap.lookup t).getD ""

/-- The condition built for one input condition (status.go lines 38-44):
the type is translated through `statusMap`, every other field is copied. -/
def translateCondition (c : StatusCondition) : StatusCondition :=
  { condType := statusMapGet c.condType,
    status := c.status,
    lastTransitionTime := c.lastTransitionTime,
    reason := c.reason,
    message := c.message }

/-- The loop of status.go lines 37-46: every input condition produces exactly
one translated condition, in order. -/
def translateConditions (cs : List StatusCondition) : List StatusCondition :=
  cs.map translateCondition

/-- Result of a client `Get` call: the object, a not-found error, or any other
error (carrying an opaque error code). -/
inductive GetResult (α : Type) where
  | found (a : α)
  | notFound
  | errOther (code : Nat)

/-- The status of a stored ManagedClusterAddOn, as read and written by
`updateAddonStatus`. -/
structure McaStatus where
  conditions : List StatusCondition
deriving DecidableEq, Repr

/-- An ObservabilityAddon list item: its namespace and its status conditions.
`conditions = none` models a nil Go slice, `some []` a non-nil empty one. -/
structure ObservabilityAddon where
  ns : String
  conditions : Option (List StatusCondition)
deriving DecidableEq, Repr

/-- The skip guard of status.go line 33:
`addon.Status.Conditions == nil || len(addon.Status.Conditions) == 0`. -/
def condsEmpty : Option (List StatusCondition) → Bool
  | none => true
  | some cs => cs.isEmpty

/-- The client operations `updateAddonStatus` issues, in order. -/
inductive StatusAction where
  | getAddon (ns : String)
  | updateStatus (ns : String) (conds : List StatusCondition)
deriving DecidableEq, Repr

/-- Embedding of `updateAddonStatus` (status.go lines 31-71) over an explicit
client model: `get ns` is the outcome of the `Get` on the per-namespace
ManagedClusterAddOn, `updErr ns` is the outcome of the status `Update`
(`none` = success). Returns the trace of issued client operations and the
returned error code (`none` = nil error). -/
def updateAddonStatus (get : String → GetResult McaStatus)
    (updErr : String → Option Nat) :
    List ObservabilityAddon → List StatusAction × Option Nat
  | [] => ([], none)
  | addon :: rest =>
    if condsEmpty addon.conditions then
      updateAddonStatus get updErr rest
    else
      let conditions := translateConditions (addon.conditions.getD [])
      match get addon.ns with
      | GetResult.notFound =>
          let r := updateAddonStatus get updErr rest
          (StatusAction.getAddon addon.ns :: r.1, r.2)
      | GetResult.errOther code =>
          ([StatusAction.getAddon addon.ns], some code)
      | GetResult.found mca =>
          if conditions = mca.conditions then
            let r := updateAddonStatus get updErr rest
            (StatusAction.getAddon addon.ns :: r.1, r.2)
          else
            match updErr addon.ns with
            | some code =>
                ([StatusAction.getAddon addon.ns,
                  StatusAction.updateStatus addon.ns conditions], some code)
            | none =>
                let r := updateAddonStatus get updErr rest
                (StatusAction.getAddon addon.ns ::
                   StatusAction.updateStatus addon.ns conditions :: r.1, r.2)

/-! ### Work tracker (controllers/placementrule/placementrule_controller.go) -/

/-- Modelled from the spec: `util.Remove` (pkg/util, not among the sources)
removes a string from a string list; the spec treats it as the set-minus step
turning the decision list into the removed-member set. -/
def removeStr (list : List String) (s : String) : List String :=
  list.filter (fun v => v ≠ s)

/-- A stored ManifestWork: its name and namespace, the only fields the cleanup
phase reads. -/
structure ManifestWork where
  name : String
  ns : String
deriving DecidableEq, Repr

/-- Modelled from the spec: the fixed per-member bundle name suffix
(`workNameSuffix`, defined in manifestwork.go which is not among the sources;
the spec gives the `<memberNamespace> + "-observability"`-style convention). -/
def workNameSuffix : String := "-observability"

/-- The delete operations issued by the cleanup phase of `Reconcile`
(placementrule_controller.go lines 161-178). -/
inductive CleanupAction where
  | deleteWork (name ns : String)
  | deleteManagedClusterRes (ns : String)
deriving DecidableEq, Repr

/-- Embedding of the manifestwork cleanup loop of `Reconcile`
(placementrule_controller.go lines 161-178). `delWorkOk name ns` and
`delResOk ns` model whether `deleteManifestWork` / `deleteManagedClusterRes`
succeed; a failure returns immediately (the Go code returns the error).
Returns the attempted delete operations, the remaining `staleAddons`, and
whether the loop returned an error. -/
def cleanupPass (delWorkOk : String → String → Bool) (delResOk : String → Bool)
    (latest : List String) :
    List ManifestWork → List String → List CleanupAction × List String × Bool
  | [], stale => ([], stale, false)
  | w :: rest, stale =>
    let invalid := w.name != w.ns ++ workNameSuffix
    let acts0 : List CleanupAction :=
      if invalid then [CleanupAction.deleteWork w.name w.ns] else []
    if invalid && !delWorkOk w.name w.ns then
      (acts0, stale, true)
    else if !latest.contains w.ns then
      if !delResOk w.ns then
        (acts0 ++ [CleanupAction.deleteManagedClusterRes w.ns], stale, true)
      else
        let r := cleanupPass delWorkOk delResOk latest rest stale
        (acts0 ++ CleanupAction.deleteManagedClusterRes w.ns :: r.1, r.2.1, r.2.2)
    else
      let r := cleanupPass delWorkOk delResOk latest rest (removeStr stale w.ns)
      (acts0 ++ r.1, r.2.1, r.2.2)

/-- The delete operations the cleanup loop issues when no deletion fails,
written as a direct recursion over the work list (proved equal to the trace of
`cleanupPass` under all-successful deletions). -/
def cleanupActionsSpec (latest : List String) : List ManifestWork → List CleanupAction
  | [] => []
  | w :: rest =>
    (if w.name != w.ns ++ workNameSuffix then
       [CleanupAction.deleteWork w.name w.ns]
     else []) ++
    (if latest.contains w.ns then []
     else [CleanupAction.deleteManagedClusterRes w.ns]) ++
    cleanupActionsSpec latest rest

/-- One placement decision (`decision.ClusterName`,
`decision.ClusterNamespace`). -/
structure Decision where
  clusterName : String
  clusterNamespace : String
deriving DecidableEq, Repr

/-- The per-member operations attempted by the convergence step of
`createAllRelatedRes`. -/
inductive ConvergeAction where
  | createRes (name ns : String)
  | deleteObsAddon (ns : String)
deriving DecidableEq, Repr

/-- The decision loop of `createAllRelatedRes` (placementrule_controller.go
lines 255-265): every decision is removed from `current` and its resources are
created; a failure only sets the failure flag. `failed` is the flag
accumulator. Returns the attempted creates, the final `currentClusters`, and
the flag. -/
def convergeCreates (createOk : Decision → Bool) :
    List Decision → List String → Bool → List ConvergeAction × List String × Bool
  | [], current, failed => ([], current, failed)
  | d :: ds, current, failed =>
    let current1 := removeStr current d.clusterNamespace
    let failed1 := if createOk d then failed else true
    let r := convergeCreates createOk ds current1 failed1
    (ConvergeAction.createRes d.clusterName d.clusterNamespace :: r.1, r.2.1, r.2.2)

/-- The removed-member loop of `createAllRelatedRes`
(placementrule_controller.go lines 267-275): every remaining cluster's
observabilityaddon is deleted; a failure only sets the failure flag. -/
def convergeDeletes (deleteOk : String → Bool) :
    List String → Bool → List ConvergeAction × Bool
  | [], failed => ([], failed)
  | c :: cs, failed =>
    let failed1 := if deleteOk c then failed else true
    let r := convergeDeletes deleteOk cs failed1
    (ConvergeAction.deleteObsAddon c :: r.1, r.2)

/-- The convergence step of `createAllRelatedRes`
(placementrule_controller.go lines 250-282): seed `currentClusters` with the
addon namespaces, run the decision loop then the removed-member loop, and
return an error exactly when either failure flag is set (lines 277-280). -/
def createAllRelatedResLoop (decisions : List Decision) (addonNss : List String)
    (createOk : Decision → Bool) (deleteOk : String → Bool) :
    List ConvergeAction × Bool :=
  let r1 := convergeCreates createOk decisions addonNss false
  let r2 := convergeDeletes deleteOk r1.2.1 false
  (r1.1 ++ r2.1, r1.2.2 || r2.2)

/-- The removed-member set: the addon namespaces left after removing every
decision's namespace (the value `currentClusters` holds after the decision
loop). -/
def removedAfter (decisions : List Decision) (addonNss : List String) :
    List String :=
  decisions.foldl (fun cur d => removeStr cur d.clusterNamespace) addonNss

/-- The two process-local created flags (placementrule_controller.go
lines 46-47). -/
structure GlobalFlags where
  isCRoleCreated : Bool
  isClusterManagementAddonCreated : Bool
deriving DecidableEq, Repr

/-- Embedding of `deleteGlobalResource` (placementrule_controller.go lines
298-315): delete the cluster role, then the resource role, then reset
`isCRoleCreated`; delete the ClusterManagementAddon, then reset
`isClusterManagementAddonCreated`; any failure returns the error at that
point. The three Booleans model the success of the three deletions. Returns
the flags after the call and whether an error was returned. -/
def deleteGlobalResource (delClusterRoleOk delResourceRoleOk delCMAOk : Bool)
    (f : GlobalFlags) : GlobalFlags × Bool :=
  if delClusterRoleOk = false then (f, true)
  else if delResourceRoleOk = false then (f, true)
  else
    let f1 : GlobalFlags := { f with isCRoleCreated := false }
    if delCMAOk = false then (f1, true)
    else ({ f1 with isClusterManagementAddonCreated := false }, false)

/-- The image pull secret: name and opaque payload. -/
structure PullSecret where
  name : String
  payload : Nat
deriving DecidableEq, Repr

/-- The pull-secret resolution of `createAllRelatedRes`
(placementrule_controller.go lines 234-247): a not-found `Get` leaves the
secret nil and the pass proceeds; any other error is returned. -/
def resolveImagePullSecret : GetResult PullSecret → Except Nat (Option PullSecret)
  | GetResult.found s => Except.ok (some s)
  | GetResult.notFound => Except.ok none
  | GetResult.errOther code => Except.error code

/-- A manifest inside a member's ManifestWork bundle. -/
inductive Manifest where
  | template (idx : Nat)
  | pullSecretManifest (name : String)
deriving DecidableEq, Repr

/-- Modelled from the spec: `createManifestWorks` (manifestwork.go, not among
the sources; only its test `TestManifestWork` is). Per the spec the member
bundle is the rendered template manifests plus, when the image pull secret is
present, one pull-secret manifest; omitting the pull secret omits exactly that
one manifest (`workSize` vs `workSize-1` in the test). -/
def manifestWorkManifests (base : List Manifest)
    (pullSecret : Option PullSecret) : List Manifest :=
  match pullSecret with
  | some s => base ++ [Manifest.pullSecretManifest s.name]
  | none => base

/-! ### Certificates (pkg/certificates/certificates.go) -/

/-- Go `[]byte` values as lists of byte values. -/
abbrev Bytes := List Nat

/-- The ASCII bytes of `"-----BEGIN "`: every PEM block starts with a line
carrying this marker, so input without it holds no PEM block. -/
def pemBeginMarker : Bytes := [45, 45, 45, 45, 45, 66, 69, 71, 73, 78, 32]

/-- `leadsWith needle hay` is true when `needle` occurs at the start of
`hay`. -/
def leadsWith : Bytes → Bytes → Bool
  | [], _ => true
  | _ :: _, [] => false
  | a :: as, b :: bs => a == b && leadsWith as bs

/-- `containsSeq needle hay` is true when `needle` occurs contiguously
anywhere in `hay`. -/
def containsSeq (needle : Bytes) : Bytes → Bool
  | [] => leadsWith needle []
  | hay@(_ :: t) => leadsWith needle hay || containsSeq needle t

/-- Abstract model of the Go standard-library decoding functions used by
certificates.go. `pemDecode` models `pem.Decode` restricted to the first
return value (`none` = nil block, `some der` = the block's `Bytes`);
`parsePKCS1PrivateKey` models `x509.ParsePKCS1PrivateKey` (`none` = error,
`some k` = the parsed key's identity). The field `pemDecode_none` records the
one fact of `pem.Decode` the proofs use: input containing no
`"-----BEGIN "` marker holds no PEM block, so decoding returns nil. -/
structure CryptoModel where
  pemDecode : Bytes → Option Bytes
  parsePKCS1PrivateKey : Bytes → Option Nat
  pemDecode_none : ∀ d : Bytes, containsSeq pemBeginMarker d = false →
    pemDecode d = none

/-- A concrete inhabitant of `CryptoModel`. -/
def simpleCryptoModel : CryptoModel where
  pemDecode := fun d => if containsSeq pemBeginMarker d then some d else none
  parsePKCS1PrivateKey := fun _ => none
  pemDecode_none := fun d h => by simp [h]

/-- The three data fields of a stored certificate or authority secret
(`ca.crt`, `tls.crt`, `tls.key`). -/
structure CertSecret where
  caCrt : Bytes
  tlsCrt : Bytes
  tlsKey : Bytes
deriving DecidableEq, Repr

/-- How a renew (isRenew = true) call ends. -/
inductive RenewOutcome where
  | skippedAbsent
  | panicked
  | renewedFresh
  | renewedReusing (k : Nat)
deriving DecidableEq, Repr

/-- The ASCII bytes of `"test-tls-key"`: a stored `tls.key` value holding no
PEM block (the fixture value used by the repository's own tests). -/
def corruptTlsKey : Bytes := [116, 101, 115, 116, 45, 116, 108, 115, 45, 107, 101, 121]

/-- The renew path of `createCASecret` (certificates.go lines 118-143) on the
stored secret: absent secret → skip; otherwise
`block, _ := pem.Decode(caSecret.Data["tls.key"])` followed by
`x509.ParsePKCS1PrivateKey(block.Bytes)` — a nil block makes `block.Bytes` a
nil-pointer dereference (modelled as `panicked`); a parse error sets
`caKey = nil` so `createCACertificate` generates a fresh key; otherwise the
stored key is reused. -/
def caRenewOutcome (m : CryptoModel) (stored : Option CertSecret) :
    RenewOutcome :=
  match stored with
  | none => RenewOutcome.skippedAbsent
  | some s =>
    match m.pemDecode s.tlsKey with
    | none => RenewOutcome.panicked
    | some der =>
      match m.parsePKCS1PrivateKey der with
      | none => RenewOutcome.renewedFresh
      | some k => RenewOutcome.renewedReusing k

/-- The renew path of `createCertSecret` (certificates.go lines 228-257):
absent secret → skip; `getCA` runs first (its failure is returned, modelled by
`caOk = false`); then the same decode-parse sequence as the authority renew is
applied to the stored `tls.key` (lines 236-241). -/
def certRenewOutcome (m : CryptoModel) (caOk : Bool)
    (stored : Option CertSecret) : Except Unit RenewOutcome :=
  match stored with
  | none => Except.ok RenewOutcome.skippedAbsent
  | some s =>
    if caOk = false then Except.error ()
    else
      match m.pemDecode s.tlsKey with
      | none => Except.ok RenewOutcome.panicked
      | some der =>
        match m.parsePKCS1PrivateKey der with
        | none => Except.ok RenewOutcome.renewedFresh
        | some k => Except.ok (RenewOutcome.renewedReusing k)

/-- Go slicing `dns[:1]` on a slice whose capacity equals its length (as
produced by a slice literal or by `append`): panics when the slice is empty,
otherwise keeps the first element. -/
def sliceToOne : List String → Except Unit (List String)
  | [] => Except.error ()
  | a :: _ => Except.ok [a]

/-- Go assignment `dns[0] = cn`: panics on an empty slice, otherwise replaces
the head. -/
def setHead (xs : List String) (cn : String) : Except Unit (List String) :=
  match xs with
  | [] => Except.error ()
  | _ :: t => Except.ok (cn :: t)

/-- The DNS-name construction of `createCertificate` (certificates.go lines
286-292). For a non-nil `dns`: `dns = append(dns[:1], dns[0:]...)` (the one
retained element followed by a copy of the whole original list) and then
`dns[0] = cn`. For nil `dns`: `cert.DNSNames = []string{cn}`. -/
def buildDNSNames (cn : String) (dns : Option (List String)) :
    Except Unit (List String) :=
  match dns with
  | none => Except.ok [cn]
  | some ds => do
    let pre ← sliceToOne ds
    let appended := pre ++ ds
    setHead appended cn

/-- The subject-alternative-name fields of the certificate template built by
`createCertificate`. `ipAddresses = none` models the `IPAddresses` field left
at its nil zero value. -/
structure CertTemplate where
  commonName : String
  dnsNames : List String
  ipAddresses : Option (List String)
deriving DecidableEq, Repr

/-- The SAN portion of `createCertificate` (certificates.go lines 286-295):
build the DNS names, and set `IPAddresses` to the caller's list exactly when
it is non-nil (`if ips != nil { cert.IPAddresses = ips }`). -/
def createCertificateTemplate (cn : String) (dns : Option (List String))
    (ips : Option (List String)) : Except Unit CertTemplate := do
  let names ← buildDNSNames cn dns
  Except.ok
    { commonName := cn,
      dnsNames := names,
      ipAddresses :=
        match ips with
        | some l => some l
        | none => none }

/-! ### Theorems -/

/-- Claim C2: the status aggregator's condition-type translation is exactly
the fixed lookup table — the six listed keys map as stated and no other key
is in the table. -/
theorem statusMap_exactly_projection_table :
    statusMapGet "Available" = "Available" ∧
    statusMapGet "Progressing" = "Progressing" ∧
    statusMapGet "Deployed" = "Progressing" ∧
    statusMapGet "Disabled" = "Degraded" ∧
    statusMapGet "Degraded" = "Degraded" ∧
    statusMapGet "NotSupported" = "Degraded" ∧
    ∀ s : String, (statusMap.lookup s).isSome = true ↔
      (s = "Available" ∨ s = "Progressing" ∨ s = "Deployed" ∨
       s = "Disabled" ∨ s = "Degraded" ∨ s = "NotSupported") := by
  refine ⟨by decide, by decide, by decide, by decide, by decide, by decide, ?_⟩
  intro s
  constructor
  · intro h
    by_contra hc
    push_neg at hc
    obtain ⟨n1, n2, n3, n4, n5, n6⟩ := hc
    have b1 : (s == "Available") = false := beq_eq_false_iff_ne.mpr n1
    have b2 : (s == "Progressing") = false := beq_eq_false_iff_ne.mpr n2
    have b3 : (s == "Deployed") = false := beq_eq_false_iff_ne.mpr n3
    have b4 : (s == "Disabled") = false := beq_eq_false_iff_ne.mpr n4
    have b5 : (s == "Degraded") = false := beq_eq_false_iff_ne.mpr n5
    have b6 : (s == "NotSupported") = false := beq_eq_false_iff_ne.mpr n6
    simp [statusMap, List.lookup, b1, b2, b3, b4, b5, b6] at h
  · rintro (rfl | rfl | rfl | rfl | rfl | rfl) <;> decide

/-- Claim C10: a condition whose type is not a key of the table is neither
skipped nor an error — it is written with an empty `Type` and the other four
fields copied verbatim; every input condition yields exactly one output
condition. -/
theorem unknown_condition_type_written_verbatim (c : StatusCondition)
    (h : statusMap.lookup c.condType = none) :
    translateCondition c =
      { condType := "", status := c.status,
        lastTransitionTime := c.lastTransitionTime,
        reason := c.reason, message := c.message } ∧
    ∀ cs : List StatusCondition, (translateConditions cs).length = cs.length := by
  refine ⟨?_, fun cs => by simp [translateConditions]⟩
  simp [translateCondition, statusMapGet, h]

/-- Witness for C10 at the concrete unknown type `"Bogus"`. -/
theorem unknown_condition_type_written_verbatim_witness :
    translateCondition ⟨"Bogus", "True", 3, "r", "m"⟩ =
      ⟨"", "True", 3, "r", "m"⟩ :=
  (unknown_condition_type_written_verbatim ⟨"Bogus", "True", 3, "r", "m"⟩
    (by decide)).1

/-- Claim C9: a not-found image-pull-secret `Get` is not an error (the secret
is left nil and the pass proceeds), and the bundle built without the pull
secret has exactly one fewer manifest than the bundle built with it. -/
theorem pull_secret_optional_and_bundle_size (base : List Manifest)
    (s : PullSecret) :
    resolveImagePullSecret GetResult.notFound = Except.ok none ∧
    (manifestWorkManifests base (some s)).length =
      (manifestWorkManifests base none).length + 1 := by
  refine ⟨rfl, ?_⟩
  simp [manifestWorkManifests]

/-- Counterexample for C5: with both flags recording created state, if the two
role deletions succeed and the ClusterManagementAddon deletion fails, the
teardown returns an error but `isCRoleCreated` has already been reset, so the
two flags do not both still record the created state. -/
theorem deleteGlobalResource_both_flags_counterexample :
    (deleteGlobalResource true true false ⟨true, true⟩).2 = true ∧
    (deleteGlobalResource true true false ⟨true, true⟩).1.isCRoleCreated = false := by
  decide

/-- Claim C5 (amended): a failure in either role deletion returns the error
before any flag is reset, and a failure in the registration deletion returns
the error before `isClusterManagementAddonCreated` is reset — but at that
point `isCRoleCreated` has already been reset to false. -/
theorem deleteGlobalResource_flag_reset_order (a b c : Bool) (f : GlobalFlags) :
    ((a = false ∨ b = false) → deleteGlobalResource a b c f = (f, true)) ∧
    (a = true → b = true → c = false →
      deleteGlobalResource a b c f =
        ({ f with isCRoleCreated := false }, true)) := by
  cases a <;> cases b <;> cases c <;> simp [deleteGlobalResource]

/-- Witness for C5 at a concrete failed registration deletion. -/
theorem deleteGlobalResource_flag_reset_order_witness :
    deleteGlobalResource true true false ⟨true, true⟩ = (⟨false, true⟩, true) :=
  (deleteGlobalResource_flag_reset_order true true false ⟨true, true⟩).2 rfl rfl rfl

/-- Counterexample for C8: for the non-nil empty DNS list (`[]string{}`,
capacity 0) the slice expression `dns[:1]` is out of range, so the
construction panics and no certificate results. -/
theorem createCertificate_empty_dns_panics :
    createCertificateTemplate "observability-server-certificate" (some []) none =
      Except.error () := rfl

/-- Claim C8 (amended): for every non-empty caller-supplied DNS name list the
built certificate template exists, its DNS list carries the common name at
position 0 (followed by the caller's list verbatim), and its IP-address list
is the caller-supplied list verbatim. -/
theorem createCertificate_san_structure (cn d : String) (rest : List String)
    (ips : Option (List String)) :
    ∃ t : CertTemplate,
      createCertificateTemplate cn (some (d :: rest)) ips = Except.ok t ∧
      t.dnsNames.head? = some cn ∧ t.ipAddresses = ips ∧
      t.dnsNames = cn :: d :: rest := by
  cases ips with
  | none => exact ⟨⟨cn, cn :: d :: rest, none⟩, rfl, rfl, rfl, rfl⟩
  | some l => exact ⟨⟨cn, cn :: d :: rest, some l⟩, rfl, rfl, rfl, rfl⟩

/-- Claim C1 (code bug): on a stored secret whose `tls.key` holds no PEM block
(the concrete bytes of `"test-tls-key"`), both renew paths dereference the nil
block returned by `pem.Decode` and panic, instead of regenerating a fresh
key. -/
theorem caRenew_panics_on_nonpem_key (m : CryptoModel) :
    caRenewOutcome m (some ⟨corruptTlsKey, corruptTlsKey, corruptTlsKey⟩) =
      RenewOutcome.panicked ∧
    certRenewOutcome m true (some ⟨corruptTlsKey, corruptTlsKey, corruptTlsKey⟩) =
      Except.ok RenewOutcome.panicked := by
  have h := m.pemDecode_none corruptTlsKey (by decide)
  constructor
  · simp [caRenewOutcome, h]
  · simp [certRenewOutcome, h]

/-- Under all-successful deletions the cleanup loop's trace is exactly
`cleanupActionsSpec`. -/
theorem cleanupPass_trace (delWorkOk : String → String → Bool)
    (delResOk : String → Bool) (latest : List String)
    (works : List ManifestWork) (stale : List String)
    (hW : ∀ n ns, delWorkOk n ns = true) (hR : ∀ ns, delResOk ns = true) :
    (cleanupPass delWorkOk delResOk latest works stale).1 =
      cleanupActionsSpec latest works := by
  induction works generalizing stale with
  | nil => rfl
  | cons v rest ih =>
    by_cases hc : v.ns ∈ latest <;>
      by_cases hinv : (v.name != v.ns ++ workNameSuffix) = true <;>
        simp [cleanupPass, cleanupActionsSpec, hW, hR, hc, hinv, ih]

/-- Membership of the invalid-name delete in the specified trace. -/
theorem mem_cleanupActionsSpec (latest : List String)
    (works : List ManifestWork) :
    ∀ w ∈ works, w.name ≠ w.ns ++ workNameSuffix →
      CleanupAction.deleteWork w.name w.ns ∈ cleanupActionsSpec latest works := by
  induction works with
  | nil => intro w hw; exact absurd hw (List.not_mem_nil w)
  | cons v rest ih =>
    intro w hw hne
    rcases List.mem_cons.mp hw with rfl | hw'
    · have hinv : (w.name != w.ns ++ workNameSuffix) = true :=
        bne_iff_ne.mpr hne
      simp [cleanupActionsSpec, hinv]
    · simp only [cleanupActionsSpec, List.mem_append]
      exact Or.inr (ih w hw' hne)

/-- Claim C3: in the cleanup phase, every stored manifestwork whose name is
not its namespace plus the fixed suffix has its deletion issued, with no
assumption on whether its namespace belongs to the current member set. -/
theorem invalid_name_work_deleted_even_if_member
    (delWorkOk : String → String → Bool) (delResOk : String → Bool)
    (latest : List String) (works : List ManifestWork) (stale : List String)
    (hW : ∀ n ns, delWorkOk n ns = true) (hR : ∀ ns, delResOk ns = true) :
    ∀ w ∈ works, w.name ≠ w.ns ++ workNameSuffix →
      CleanupAction.deleteWork w.name w.ns ∈
        (cleanupPass delWorkOk delResOk latest works stale).1 := by
  intro w hw hne
  rw [cleanupPass_trace delWorkOk delResOk latest works stale hW hR]
  exact mem_cleanupActionsSpec latest works w hw hne

/-- Witness for C3: a work named `"badname"` in namespace `"c1"` is deleted
although `"c1"` is in the current member set. -/
theorem invalid_name_work_deleted_witness :
    (["c1"] : List String).contains "c1" = true ∧
    CleanupAction.deleteWork "badname" "c1" ∈
      (cleanupPass (fun _ _ => true) (fun _ => true) ["c1"]
        [⟨"badname", "c1"⟩] ["c1"]).1 :=
  ⟨by decide,
   invalid_name_work_deleted_even_if_member (fun _ _ => true) (fun _ => true)
     ["c1"] [⟨"badname", "c1"⟩] ["c1"] (fun _ _ => rfl) (fun _ => rfl)
     ⟨"badname", "c1"⟩ (by simp) (by decide)⟩

/-- The decision loop attempts every decision's create, threads
`currentClusters` through `removeStr`, and ors the failure flag over the
decisions. -/
theorem convergeCreates_spec (createOk : Decision → Bool)
    (ds : List Decision) :
    ∀ (current : List String) (failed : Bool),
      convergeCreates createOk ds current failed =
        (ds.map (fun d => ConvergeAction.createRes d.clusterName d.clusterNamespace),
         ds.foldl (fun cur d => removeStr cur d.clusterNamespace) current,
         failed || ds.any (fun d => !createOk d)) := by
  induction ds with
  | nil => intro current failed; simp [convergeCreates]
  | cons d ds ih =>
    intro current failed
    cases hcd : createOk d <;>
      simp [convergeCreates, ih, hcd, Bool.or_assoc]

/-- The removed-member loop attempts every deletion and ors the failure flag
over the clusters. -/
theorem convergeDeletes_spec (deleteOk : String → Bool) (cs : List String) :
    ∀ failed : Bool,
      convergeDeletes deleteOk cs failed =
        (cs.map ConvergeAction.deleteObsAddon,
         failed || cs.any (fun c => !deleteOk c)) := by
  induction cs with
  | nil => intro failed; simp [convergeDeletes]
  | cons c cs ih =>
    intro failed
    cases hcd : deleteOk c <;>
      simp [convergeDeletes, ih, hcd, Bool.or_assoc]

/-- Claim C4: the convergence step attempts the create for every decision and
the delete for every removed member (its trace is exactly those attempts, in
order, with no compensating action), and it returns an error exactly when at
least one per-member create or delete failed. -/
theorem createAllRelatedRes_continue_on_error (decisions : List Decision)
    (addonNss : List String) (createOk : Decision → Bool)
    (deleteOk : String → Bool) :
    (createAllRelatedResLoop decisions addonNss createOk deleteOk).1 =
      decisions.map
        (fun d => ConvergeAction.createRes d.clusterName d.clusterNamespace) ++
      (removedAfter decisions addonNss).map ConvergeAction.deleteObsAddon ∧
    ((createAllRelatedResLoop decisions addonNss createOk deleteOk).2 = true ↔
      (∃ d ∈ decisions, createOk d = false) ∨
      (∃ c ∈ removedAfter decisions addonNss, deleteOk c = false)) := by
  unfold createAllRelatedResLoop removedAfter
  simp only [convergeCreates_spec, convergeDeletes_spec]
  simp [List.any_eq_true, Bool.not_eq_true']

/-- The aggregation returns nil exactly when no processed member hits a
non-not-found get error or a failing update. -/
theorem updateAddonStatus_ok_iff (get : String → GetResult McaStatus)
    (updErr : String → Option Nat) :
    ∀ addons : List ObservabilityAddon,
      (updateAddonStatus get updErr addons).2 = none ↔
      ∀ addon ∈ addons,
        condsEmpty addon.conditions = true ∨
        get addon.ns = GetResult.notFound ∨
        ∃ mca, get addon.ns = GetResult.found mca ∧
          (translateConditions (addon.conditions.getD []) = mca.conditions ∨
           updErr addon.ns = none) := by
  intro addons
  induction addons with
  | nil => simp [updateAddonStatus]
  | cons a rest ih =>
    by_cases h1 : condsEmpty a.conditions
    · simp [updateAddonStatus, h1, ih, List.forall_mem_cons]
    · cases hg : get a.ns with
      | found mca =>
        by_cases he : translateConditions (a.conditions.getD []) = mca.conditions
        · simp [updateAddonStatus, h1, hg, he, ih, List.forall_mem_cons]
        · cases hu : updErr a.ns with
          | none => simp [updateAddonStatus, h1, hg, he, hu, ih, List.forall_mem_cons]
          | some code => simp [updateAddonStatus, h1, hg, he, hu, List.forall_mem_cons]
      | notFound => simp [updateAddonStatus, h1, hg, ih, List.forall_mem_cons]
      | errOther code => simp [updateAddonStatus, h1, hg, List.forall_mem_cons]

/-- Claim C6: a not-found get on a member's health object continues with the
next member without an error; any other get error, or an update error, is
returned at once; and the whole aggregation returns nil exactly when no
member hit such an error. -/
theorem updateAddonStatus_notfound_continues_other_errors_abort
    (get : String → GetResult McaStatus) (updErr : String → Option Nat) :
    (∀ (addon : ObservabilityAddon) (rest : List ObservabilityAddon),
        condsEmpty addon.conditions = false →
        get addon.ns = GetResult.notFound →
        updateAddonStatus get updErr (addon :: rest) =
          (StatusAction.getAddon addon.ns ::
             (updateAddonStatus get updErr rest).1,
           (updateAddonStatus get updErr rest).2)) ∧
    (∀ (addon : ObservabilityAddon) (rest : List ObservabilityAddon)
        (code : Nat),
        condsEmpty addon.conditions = false →
        get addon.ns = GetResult.errOther code →
        updateAddonStatus get updErr (addon :: rest) =
          ([StatusAction.getAddon addon.ns], some code)) ∧
    (∀ (addon : ObservabilityAddon) (rest : List ObservabilityAddon)
        (code : Nat) (mca : McaStatus),
        condsEmpty addon.conditions = false →
        get addon.ns = GetResult.found mca →
        translateConditions (addon.conditions.getD []) ≠ mca.conditions →
        updErr addon.ns = some code →
        updateAddonStatus get updErr (addon :: rest) =
          ([StatusAction.getAddon addon.ns,
            StatusAction.updateStatus addon.ns
              (translateConditions (addon.conditions.getD []))], some code)) ∧
    (∀ addons : List ObservabilityAddon,
        (updateAddonStatus get updErr addons).2 = none ↔
        ∀ addon ∈ addons,
          condsEmpty addon.conditions = true ∨
          get addon.ns = GetResult.notFound ∨
          ∃ mca, get addon.ns = GetResult.found mca ∧
            (translateConditions (addon.conditions.getD []) = mca.conditions ∨
             updErr addon.ns = none)) := by
  refine ⟨?_, ?_, ?_, updateAddonStatus_ok_iff get updErr⟩
  · intro addon rest h1 h2
    simp [updateAddonStatus, h1, h2]
  · intro addon rest code h1 h2
    simp [updateAddonStatus, h1, h2]
  · intro addon rest code mca h1 h2 hne hu
    simp [updateAddonStatus, h1, h2, hne, hu]

/-- Witness for C6: a member whose get fails with a non-not-found error makes
the aggregation return that error at once. -/
theorem updateAddonStatus_error_abort_witness :
    updateAddonStatus (fun _ => GetResult.errOther 5) (fun _ => none)
        [⟨"c1", some [⟨"Deployed", "True", 0, "r", "m"⟩]⟩] =
      ([StatusAction.getAddon "c1"], some 5) :=
  (updateAddonStatus_notfound_continues_other_errors_abort
      (fun _ => GetResult.errOther 5) (fun _ => none)).2.1
    ⟨"c1", some [⟨"Deployed", "True", 0, "r", "m"⟩]⟩ [] 5 rfl rfl

/-- An update action in the trace comes from a member with conditions whose
translated list differs, under deep equality, from the stored one. -/
theorem updateStatus_action_sound (get : String → GetResult McaStatus)
    (updErr : String → Option Nat) :
    ∀ (addons : List ObservabilityAddon) (ns : String)
      (conds : List StatusCondition),
      StatusAction.updateStatus ns conds ∈
        (updateAddonStatus get updErr addons).1 →
      ∃ addon ∈ addons, addon.ns = ns ∧
        condsEmpty addon.conditions = false ∧
        ∃ mca, get ns = GetResult.found mca ∧
          conds = translateConditions (addon.conditions.getD []) ∧
          conds ≠ mca.conditions := by
  intro addons
  induction addons with
  | nil => intro ns conds h; simp [updateAddonStatus] at h
  | cons a rest ih =>
    intro ns conds h
    cases h1 : condsEmpty a.conditions with
    | true =>
      rw [show updateAddonStatus get updErr (a :: rest) =
            updateAddonStatus get updErr rest from by
          simp [updateAddonStatus, h1]] at h
      obtain ⟨b, hb, hrest⟩ := ih ns conds h
      exact ⟨b, List.mem_cons_of_mem a hb, hrest⟩
    | false =>
      cases hg : get a.ns with
      | notFound =>
        simp only [updateAddonStatus, h1, hg, Bool.false_eq_true, if_false] at h
        simp only [List.mem_cons] at h
        rcases h with habs | h
        · exact absurd habs (by simp)
        · obtain ⟨b, hb, hrest⟩ := ih ns conds h
          exact ⟨b, List.mem_cons_of_mem a hb, hrest⟩
      | errOther code =>
        simp [updateAddonStatus, h1, hg] at h
      | found mca =>
        by_cases he : translateConditions (a.conditions.getD []) = mca.conditions
        · simp only [updateAddonStatus, h1, hg, he, Bool.false_eq_true,
            if_false, if_true] at h
          simp only [List.mem_cons] at h
          rcases h with habs | h
          · exact absurd habs (by simp)
          · obtain ⟨b, hb, hrest⟩ := ih ns conds h
            exact ⟨b, List.mem_cons_of_mem a hb, hrest⟩
        · cases hu : updErr a.ns with
          | some code =>
            simp [updateAddonStatus, h1, hg, he, hu] at h
            obtain ⟨hns, hconds⟩ := h
            subst hns
            exact ⟨a, List.mem_cons_self a rest, rfl, h1, mca, hg, hconds,
              by rw [hconds]; exact he⟩
          | none =>
            simp [updateAddonStatus, h1, hg, he, hu] at h
            rcases h with ⟨hns, hconds⟩ | h
            · subst hns
              exact ⟨a, List.mem_cons_self a rest, rfl, h1, mca, hg, hconds,
                by rw [hconds]; exact he⟩
            · obtain ⟨b, hb, hrest⟩ := ih ns conds h
              exact ⟨b, List.mem_cons_of_mem a hb, hrest⟩

/-- Claim C7: a member with a nil or empty condition list causes no read or
write at all; a member whose translated conditions deep-equal the stored ones
is read but not written; and every update in the trace is for a member whose
translated conditions differ from the stored ones. -/
theorem updateAddonStatus_no_redundant_writes
    (get : String → GetResult McaStatus) (updErr : String → Option Nat) :
    (∀ (addon : ObservabilityAddon) (rest : List ObservabilityAddon),
        condsEmpty addon.conditions = true →
        updateAddonStatus get updErr (addon :: rest) =
          updateAddonStatus get updErr rest) ∧
    (∀ (addon : ObservabilityAddon) (rest : List ObservabilityAddon)
        (mca : McaStatus),
        condsEmpty addon.conditions = false →
        get addon.ns = GetResult.found mca →
        translateConditions (addon.conditions.getD []) = mca.conditions →
        updateAddonStatus get updErr (addon :: rest) =
          (StatusAction.getAddon addon.ns ::
             (updateAddonStatus get updErr rest).1,
           (updateAddonStatus get updErr rest).2)) ∧
    (∀ (addons : List ObservabilityAddon) (ns : String)
        (conds : List StatusCondition),
        StatusAction.updateStatus ns conds ∈
          (updateAddonStatus get updErr addons).1 →
        ∃ addon ∈ addons, addon.ns = ns ∧
          condsEmpty addon.conditions = false ∧
          ∃ mca, get ns = GetResult.found mca ∧
            conds = translateConditions (addon.conditions.getD []) ∧
            conds ≠ mca.conditions) := by
  refine ⟨?_, ?_, updateStatus_action_sound get updErr⟩
  · intro addon rest h1
    simp [updateAddonStatus, h1]
  · intro addon rest mca h1 hg he
    simp [updateAddonStatus, h1, hg, he]

/-- Witness for C7: a member with a nil condition list produces no client
operation at all. -/
theorem updateAddonStatus_no_redundant_writes_witness :
    updateAddonStatus (fun _ => GetResult.notFound) (fun _ => none)
        [⟨"c1", none⟩] = ([], none) :=
  ((updateAddonStatus_no_redundant_writes (fun _ => GetResult.notFound)
      (fun _ => none)).1 ⟨"c1", none⟩ [] rfl).trans rfl
